import Mathlib

set_option linter.unusedSectionVars false

/-!
Verification of the track segmentation and activity-classification engine
of `src/app.py` (daily-report GPS analytics dashboard).

The analytic core of the source (lines 71-118) is embedded shallowly:

* `calc_distance` / `hav_a`  — the haversine great-circle distance (real-valued,
  `np.arctan2` is modelled by `arctan2` below with numpy's branch conventions);
* `speed_kmh`                — `np.where((time_diff > 0) & (time_diff < 600), dist/time_diff*3.6, 0)`;
* `classify_status`          — the three-band threshold classifier;
* `runs` / `mkInterval`      — `group_id = (status != status.shift()).cumsum()`
  followed by `groupby(...).agg(first time, last time, sum time_diff)`;
* `summaryFilter`            — `summary[summary['duration_min'] > 1]`;
* `total_time`, `total_dist`, `label_total` — the KPI aggregation lines.

The numeric pipeline downstream of the haversine call is generic over a
`LinearOrderedField` so that theorems can be instantiated at `ℚ` (where every
hypothesis is decidable and witnesses evaluate by `decide`) as well as at `ℝ`
(where the end-to-end pipeline including `calc_distance` lives).
-/

namespace DailyReport

/-- The three activity labels of the classifier: 手作業(滞在) / 重機(クローラ) /
車両(ホイール), i.e. manual work, crawler, wheeled vehicle. -/
inductive Status where
  | hand
  | crawler
  | wheel
deriving DecidableEq, Repr

/-- The two sidebar sliders: `hand_threshold` and `crawler_threshold` (km/h). -/
structure Config (α : Type) where
  hand_threshold : α
  crawler_threshold : α
deriving DecidableEq

/-- One row of the enriched dataframe: timestamp (seconds), derived distance
`dist_m`, elapsed `time_diff`, derived `speed_kmh` and classified `status`. -/
structure Sample (α : Type) where
  time : α
  dist_m : α
  time_diff : α
  speed_kmh : α
  status : Status
deriving DecidableEq

/-- One row of the `summary` dataframe produced by the groupby aggregation. -/
structure Interval (α : Type) where
  status : Status
  start_time : α
  end_time : α
  duration_sec : α
deriving DecidableEq

variable {α : Type} [LinearOrderedField α]

/-- Line 84-85 of `src/app.py`:
`np.where((df['time_diff'] > 0) & (df['time_diff'] < 600), (df['dist_m'] / df['time_diff']) * 3.6, 0)`.
(`36 / 10` is the literal `3.6`, written so that it elaborates in any field.) -/
def speed_kmh (dist_m time_diff : α) : α :=
  if 0 < time_diff ∧ time_diff < 600 then dist_m / time_diff * (36 / 10) else 0

/-- Lines 88-94 of `src/app.py`: the branch chain
`if speed < hand_threshold ... elif speed < crawler_threshold ... else ...`. -/
def classify_status (cfg : Config α) (speed : α) : Status :=
  if speed < cfg.hand_threshold then Status.hand
  else if speed < cfg.crawler_threshold then Status.crawler
  else Status.wheel

/-- Line 96 of `src/app.py`: `df['status'] = df['speed_kmh'].apply(classify_status)` —
the status column is a pointwise map of the pure classifier over the speed column. -/
def applyStatus (cfg : Config α) (rows : List (Sample α)) : List (Sample α) :=
  rows.map fun r => { r with status := classify_status cfg r.speed_kmh }

/-- Helper for `runs`: accumulates the current group (reversed) while the status
stays equal, starting a fresh group at each status change — the shallow embedding
of `group_id = (df['status'] != df['status'].shift()).cumsum()` followed by
grouping rows by `group_id`. -/
def runsAux : Status → List (Sample α) → List (Sample α) → List (List (Sample α))
  | _, cur, [] => [cur.reverse]
  | s, cur, r :: rest =>
    if r.status = s then runsAux s (r :: cur) rest
    else cur.reverse :: runsAux r.status [r] rest

/-- Lines 101-103 of `src/app.py`: the list of maximal consecutive same-status
groups of rows, in original order. -/
def runs : List (Sample α) → List (List (Sample α))
  | [] => []
  | r :: rest => runsAux r.status [r] rest

/-- Lines 103-107 of `src/app.py`: the `agg` of one group —
`start_time = first time`, `end_time = last time`, `duration_sec = sum of time_diff`.
(The `[]` case is unreachable: `runs` only produces nonempty groups.) -/
def mkInterval : List (Sample α) → Interval α
  | [] => ⟨Status.hand, 0, 0, 0⟩
  | r :: rest =>
    ⟨r.status, r.time, (rest.getLastD r).time, ((r :: rest).map Sample.time_diff).sum⟩

/-- Line 109 of `src/app.py`: `summary['duration_min'] = summary['duration_sec'] / 60`. -/
def duration_min (iv : Interval α) : α := iv.duration_sec / 60

/-- Line 110 of `src/app.py`: `summary = summary[summary['duration_min'] > 1]`. -/
def summaryFilter (l : List (Interval α)) : List (Interval α) :=
  l.filter fun iv => decide (1 < duration_min iv)

/-- All aggregated groups, before the noise filter. -/
def all_runs (rows : List (Sample α)) : List (Interval α) :=
  (runs rows).map mkInterval

/-- The final `summary` dataframe: aggregated groups after the noise filter. -/
def summary (rows : List (Sample α)) : List (Interval α) :=
  summaryFilter (all_runs rows)

/-- The rows discarded by line 110: the complement of `summaryFilter`. -/
def dropped (rows : List (Sample α)) : List (Interval α) :=
  (all_runs rows).filter fun iv => !decide (1 < duration_min iv)

/-- Line 113 of `src/app.py`: `total_time = df['time_diff'].sum() / 60`. -/
def total_time (rows : List (Sample α)) : α :=
  (rows.map Sample.time_diff).sum / 60

/-- Line 114 of `src/app.py`: `total_dist = df['dist_m'].sum() / 1000`. -/
def total_dist (rows : List (Sample α)) : α :=
  (rows.map Sample.dist_m).sum / 1000

/-- Lines 116-118 of `src/app.py`:
`summary[summary['status']==st]['duration_min'].sum()`. -/
def label_total (st : Status) (l : List (Interval α)) : α :=
  ((l.filter fun iv => decide (iv.status = st)).map duration_min).sum

/-- Line 116: total minutes classified as manual work, after filtering. -/
def time_hand (rows : List (Sample α)) : α := label_total Status.hand (summary rows)

/-- Line 117: total minutes classified as crawler, after filtering. -/
def time_crawler (rows : List (Sample α)) : α := label_total Status.crawler (summary rows)

/-- Line 118: total minutes classified as wheeled vehicle, after filtering. -/
def time_wheel (rows : List (Sample α)) : α := label_total Status.wheel (summary rows)

/-! ### Band characterisation of the classifier (helper lemmas) -/

theorem classify_eq_hand_iff (cfg : Config α) (s : α) :
    classify_status cfg s = Status.hand ↔ s < cfg.hand_threshold := by
  simp only [classify_status]
  split_ifs with h1 h2
  · exact iff_of_true rfl h1
  · exact iff_of_false (by decide) h1
  · exact iff_of_false (by decide) h1

theorem classify_eq_crawler_iff (cfg : Config α) (s : α) :
    classify_status cfg s = Status.crawler ↔
      cfg.hand_threshold ≤ s ∧ s < cfg.crawler_threshold := by
  simp only [classify_status]
  split_ifs with h1 h2
  · exact iff_of_false (by decide)
      (fun hp => absurd h1 (not_lt.mpr hp.1))
  · exact iff_of_true rfl ⟨not_lt.mp h1, h2⟩
  · exact iff_of_false (by decide) (fun hp => h2 hp.2)

theorem classify_eq_wheel_iff (cfg : Config α)
    (h : cfg.hand_threshold < cfg.crawler_threshold) (s : α) :
    classify_status cfg s = Status.wheel ↔ cfg.crawler_threshold ≤ s := by
  simp only [classify_status]
  split_ifs with h1 h2
  · exact iff_of_false (by decide)
      (fun hp => absurd (h1.trans h) (not_lt.mpr hp))
  · exact iff_of_false (by decide)
      (fun hp => absurd h2 (not_lt.mpr hp))
  · exact iff_of_true rfl (not_lt.mp h2)

/-! ### Claims C1 and C2 -/

/-- C1: a sample with elapsed time `<= 0` or `>= 600` seconds gets speed 0, and
otherwise `speed_kmh = dist_m / time_diff * 3.6`; in particular elapsed exactly
600 gives speed 0, elapsed 599.999 with nonzero distance gives nonzero speed,
and a negative elapsed time falls into the zero-speed branch. -/
theorem c1_speed_branches (d e : ℚ) :
    (e ≤ 0 ∨ 600 ≤ e → speed_kmh d e = 0) ∧
    (0 < e → e < 600 → speed_kmh d e = d / e * 3.6) ∧
    speed_kmh d 600 = 0 ∧
    (d ≠ 0 → speed_kmh d (599999 / 1000) ≠ 0) ∧
    (e < 0 → speed_kmh d e = 0) := by
  refine ⟨?_, ?_, ?_, ?_, ?_⟩
  · intro h
    rw [speed_kmh, if_neg]
    rintro ⟨h1, h2⟩
    rcases h with h | h <;> linarith
  · intro h1 h2
    rw [speed_kmh, if_pos ⟨h1, h2⟩]
    norm_num
  · rw [speed_kmh, if_neg]
    rintro ⟨-, h2⟩
    exact lt_irrefl _ h2
  · intro hd
    rw [speed_kmh, if_pos (by norm_num)]
    exact mul_ne_zero (div_ne_zero hd (by norm_num)) (by norm_num)
  · intro h
    rw [speed_kmh, if_neg]
    rintro ⟨h1, -⟩
    linarith

/-- Witness for C1 at concrete inputs. -/
theorem c1_speed_branches_witness :
    speed_kmh (5 : ℚ) 600 = 0 ∧
    speed_kmh (5 : ℚ) 100 = 5 / 100 * 3.6 ∧
    speed_kmh (5 : ℚ) (-7) = 0 ∧
    speed_kmh (5 : ℚ) (599999 / 1000) ≠ 0 :=
  ⟨(c1_speed_branches 5 600).2.2.1,
   (c1_speed_branches 5 100).2.1 (by decide) (by decide),
   (c1_speed_branches 5 (-7)).2.2.2.2 (by decide),
   (c1_speed_branches 5 0).2.2.2.1 (by decide)⟩

/-- C2: with ascending thresholds `t1 < t2`, classification is strict
less-than on the lower bound of each band: `speed < t1` is manual work,
`t1 <= speed < t2` is crawler, `speed >= t2` is wheel; a speed exactly equal
to a threshold lands in the higher band; and the status column is a pointwise
map of the pure classifier, so each sample is classified independently. -/
theorem c2_classification_bands (cfg : Config ℚ)
    (h : cfg.hand_threshold < cfg.crawler_threshold) (s : ℚ) :
    (classify_status cfg s = Status.hand ↔ s < cfg.hand_threshold) ∧
    (classify_status cfg s = Status.crawler ↔
      cfg.hand_threshold ≤ s ∧ s < cfg.crawler_threshold) ∧
    (classify_status cfg s = Status.wheel ↔ cfg.crawler_threshold ≤ s) ∧
    classify_status cfg cfg.hand_threshold = Status.crawler ∧
    classify_status cfg cfg.crawler_threshold = Status.wheel ∧
    (∀ (rows : List (Sample ℚ)) (i : ℕ) (hi : i < rows.length)
        (hi2 : i < (applyStatus cfg rows).length),
      ((applyStatus cfg rows).get ⟨i, hi2⟩).status
        = classify_status cfg (rows.get ⟨i, hi⟩).speed_kmh) := by
  refine ⟨classify_eq_hand_iff cfg s, classify_eq_crawler_iff cfg s,
    classify_eq_wheel_iff cfg h s, ?_, ?_, ?_⟩
  · exact (classify_eq_crawler_iff cfg _).mpr ⟨le_refl _, h⟩
  · exact (classify_eq_wheel_iff cfg h _).mpr (le_refl _)
  · intro rows i hi hi2
    simp [applyStatus]

/-- Witness for C2 at a concrete slider configuration. -/
theorem c2_classification_bands_witness :
    classify_status ⟨2, 15⟩ ((2 : ℚ)) = Status.crawler ∧
    classify_status ⟨2, 15⟩ (15 : ℚ) = Status.wheel ∧
    classify_status ⟨2, 15⟩ ((1 : ℚ)) = Status.hand :=
  ⟨(c2_classification_bands ⟨2, 15⟩ (by decide) 0).2.2.2.1,
   (c2_classification_bands ⟨2, 15⟩ (by decide) 0).2.2.2.2.1,
   (c2_classification_bands ⟨2, 15⟩ (by decide) 1).1.mpr (by decide)⟩

/-! ### Structure of the run segmentation -/

theorem runsAux_flatten (rest : List (Sample α)) :
    ∀ (s : Status) (cur : List (Sample α)),
      (runsAux s cur rest).flatten = cur.reverse ++ rest := by
  induction rest with
  | nil =>
    intro s cur
    simp [runsAux]
  | cons r rest ih =>
    intro s cur
    simp only [runsAux]
    by_cases hst : r.status = s
    · rw [if_pos hst, ih]
      simp
    · rw [if_neg hst]
      simp [ih]

/-- The consecutive same-status groups concatenate back to the original rows:
`group_id` partitions the dataframe without losing or duplicating rows. -/
theorem runs_flatten (rows : List (Sample α)) : (runs rows).flatten = rows := by
  cases rows with
  | nil => rfl
  | cons r rest => simpa using runsAux_flatten rest r.status [r]

theorem runsAux_chain {R : Sample α → Sample α → Prop} (rest : List (Sample α)) :
    ∀ (s : Status) (cur : List (Sample α)),
      List.Chain' R (cur.reverse ++ rest) →
      ∀ c ∈ runsAux s cur rest, List.Chain' R c := by
  induction rest with
  | nil =>
    intro s cur h c hc
    simp only [runsAux, List.mem_singleton] at hc
    subst hc
    simpa using h
  | cons r rest ih =>
    intro s cur h c hc
    simp only [runsAux] at hc
    by_cases hst : r.status = s
    · rw [if_pos hst] at hc
      refine ih s (r :: cur) ?_ c hc
      simpa [List.append_assoc] using h
    · rw [if_neg hst] at hc
      rcases List.mem_cons.mp hc with rfl | hc'
      · exact (List.chain'_append.mp h).1
      · refine ih r.status [r] ?_ c hc'
        simpa using (List.chain'_append.mp h).2.1

/-- Every group produced by the segmenter inherits any adjacency relation that
held between consecutive rows of the input (groups are contiguous slices). -/
theorem mem_runs_chain {R : Sample α → Sample α → Prop} {rows run : List (Sample α)}
    (hrows : List.Chain' R rows) (h : run ∈ runs rows) : List.Chain' R run := by
  cases rows with
  | nil => simp [runs] at h
  | cons r rest =>
    exact runsAux_chain rest r.status [r] (by simpa using hrows) run h

theorem runsAux_ne_nil (rest : List (Sample α)) :
    ∀ (s : Status) (cur : List (Sample α)), cur ≠ [] →
      ∀ c ∈ runsAux s cur rest, c ≠ [] := by
  induction rest with
  | nil =>
    intro s cur hcur c hc
    simp only [runsAux, List.mem_singleton] at hc
    subst hc
    simpa using hcur
  | cons r rest ih =>
    intro s cur hcur c hc
    simp only [runsAux] at hc
    by_cases hst : r.status = s
    · rw [if_pos hst] at hc
      exact ih s (r :: cur) (by simp) c hc
    · rw [if_neg hst] at hc
      rcases List.mem_cons.mp hc with rfl | hc'
      · simpa using hcur
      · exact ih r.status [r] (by simp) c hc'

/-- The segmenter never produces an empty group. -/
theorem mem_runs_ne_nil {rows run : List (Sample α)} (h : run ∈ runs rows) :
    run ≠ [] := by
  cases rows with
  | nil => simp [runs] at h
  | cons r rest => exact runsAux_ne_nil rest r.status [r] (by simp) run h

/-- The aggregated `duration_sec` of a group is the sum of its `time_diff` column. -/
theorem mkInterval_duration (run : List (Sample α)) :
    (mkInterval run).duration_sec = (run.map Sample.time_diff).sum := by
  cases run <;> rfl

/-- Summing the per-group `duration_sec` over all groups recovers the sum of the
whole `time_diff` column. -/
theorem runs_sum_time_diff (rows : List (Sample α)) :
    ((all_runs rows).map Interval.duration_sec).sum = (rows.map Sample.time_diff).sum := by
  unfold all_runs
  rw [List.map_map]
  have h : (Interval.duration_sec ∘ mkInterval : List (Sample α) → α)
      = fun run => (run.map Sample.time_diff).sum :=
    funext fun run => mkInterval_duration run
  rw [h]
  conv_rhs => rw [← runs_flatten rows]
  rw [List.map_flatten, List.sum_flatten, List.map_map]
  rfl

/-- Telescoping: along a row list whose `time_diff` column agrees with the
timestamp differences, the summed `time_diff` of a run is its first sample's
`time_diff` plus the wall-clock span from first to last timestamp. -/
theorem chain_sum_time_diff (r : Sample α) (rest : List (Sample α))
    (h : List.Chain' (fun a b => b.time_diff = b.time - a.time) (r :: rest)) :
    ((r :: rest).map Sample.time_diff).sum
      = r.time_diff + ((rest.getLastD r).time - r.time) := by
  induction rest generalizing r with
  | nil => simp
  | cons b bs ih =>
    have hstep : b.time_diff = b.time - r.time := (List.chain'_cons.mp h).1
    have htail := (List.chain'_cons.mp h).2
    rw [List.map_cons, List.sum_cons, ih b htail, List.getLastD_cons, hstep]
    ring

/-! ### Claims C3 to C6 -/

/-- C3: line 110 keeps exactly the runs with `duration_min > 1`: a run whose
`duration_sec / 60` is at most 1 (in particular a run of exactly 60 seconds) is
absent from the final Interval list, survivors pass through unchanged and in
order (a sublist of the pre-filter list — dropped runs are discarded, never
merged into neighbours), and a run is in the final list iff it was produced by
the segmenter and has `duration_sec / 60 > 1`. -/
theorem c3_noise_filter (rows : List (Sample ℚ)) (iv : Interval ℚ) :
    summary rows = summaryFilter (all_runs rows) ∧
    (iv ∈ summary rows ↔ iv ∈ all_runs rows ∧ 1 < iv.duration_sec / 60) ∧
    (iv.duration_sec / 60 ≤ 1 → iv ∉ summary rows) ∧
    (iv.duration_sec = 60 → iv ∉ summary rows) ∧
    (summary rows).Sublist (all_runs rows) := by
  have hiff : iv ∈ summary rows ↔ iv ∈ all_runs rows ∧ 1 < iv.duration_sec / 60 := by
    simp [summary, summaryFilter, List.mem_filter, duration_min]
  refine ⟨rfl, hiff, ?_, ?_, List.filter_sublist _⟩
  · intro hle hmem
    exact absurd (hiff.mp hmem).2 (not_lt.mpr hle)
  · intro h60 hmem
    have h1 := (hiff.mp hmem).2
    rw [h60] at h1
    norm_num at h1

/-- Witness for C3: a 60-second interval is dropped. -/
theorem c3_noise_filter_witness :
    (⟨Status.hand, 0, 0, 60⟩ : Interval ℚ) ∉ summary [] :=
  (c3_noise_filter [] ⟨Status.hand, 0, 0, 60⟩).2.2.2.1 (by decide)

/-- C4: the per-run durations produced by the segmenter, before any noise
filtering, sum exactly to the sum of `elapsed_s` over all samples, which is
`total_elapsed_min * 60` — no double-count or gap at run boundaries. -/
theorem c4_total_duration (rows : List (Sample ℚ)) :
    ((all_runs rows).map Interval.duration_sec).sum = (rows.map Sample.time_diff).sum ∧
    ((all_runs rows).map Interval.duration_sec).sum = total_time rows * 60 := by
  refine ⟨runs_sum_time_diff rows, ?_⟩
  rw [runs_sum_time_diff rows, total_time,
    div_mul_cancel₀ _ (by norm_num : (60 : ℚ) ≠ 0)]

/-- C5: the `duration_sec` of every Interval produced by the segmenter is the
sum of `elapsed_s` over the samples of its run; when the `time_diff` column is
consistent with the timestamps (as `df['time'].diff()` makes it), it equals the
wall-clock span `end_time - start_time` PLUS the first sample's own
`time_diff` — i.e. it is not the wall-clock span itself whenever the run's
first sample carries a nonzero gap from the previous run. -/
theorem c5_interval_duration (rows run : List (Sample ℚ)) (hrun : run ∈ runs rows)
    (hcons : List.Chain' (fun a b => b.time_diff = b.time - a.time) rows) :
    (mkInterval run).duration_sec = (run.map Sample.time_diff).sum ∧
    ∀ r rest, run = r :: rest →
      (mkInterval run).duration_sec
        = ((mkInterval run).end_time - (mkInterval run).start_time) + r.time_diff := by
  refine ⟨mkInterval_duration run, ?_⟩
  rintro r rest rfl
  have hchain := mem_runs_chain hcons hrun
  rw [mkInterval_duration, chain_sum_time_diff r rest hchain]
  simp only [mkInterval]
  ring

/-- Witness for C5 on a one-sample run whose `time_diff` is a 7-second gap. -/
theorem c5_interval_duration_witness :
    (mkInterval [(⟨10, 0, 7, 0, Status.hand⟩ : Sample ℚ)]).duration_sec
      = ([(⟨10, 0, 7, 0, Status.hand⟩ : Sample ℚ)].map Sample.time_diff).sum ∧
    (mkInterval [(⟨10, 0, 7, 0, Status.hand⟩ : Sample ℚ)]).duration_sec
      = ((mkInterval [(⟨10, 0, 7, 0, Status.hand⟩ : Sample ℚ)]).end_time
          - (mkInterval [(⟨10, 0, 7, 0, Status.hand⟩ : Sample ℚ)]).start_time)
        + (⟨10, 0, 7, 0, Status.hand⟩ : Sample ℚ).time_diff :=
  ⟨(c5_interval_duration [⟨10, 0, 7, 0, Status.hand⟩] [⟨10, 0, 7, 0, Status.hand⟩]
      (by simp [runs, runsAux]) (by simp)).1,
   (c5_interval_duration [⟨10, 0, 7, 0, Status.hand⟩] [⟨10, 0, 7, 0, Status.hand⟩]
      (by simp [runs, runsAux]) (by simp)).2 _ _ rfl⟩

/-- Concrete one-sample input whose single 30-second run is dropped as noise. -/
def exRows : List (Sample ℚ) := [⟨0, 10, 30, 0, Status.hand⟩]

/-- C6: `total_time` and `total_dist` are the sum of `elapsed_s` over ALL
samples divided by 60 and the sum of `distance_m` over ALL samples divided by
1000; they are computed from the full sample list, not from the filtered
summary, so on a concrete input whose only run is dropped as noise the summary
is empty while both totals still count it. -/
theorem c6_totals (rows : List (Sample ℚ)) :
    total_time rows = (rows.map Sample.time_diff).sum / 60 ∧
    total_dist rows = (rows.map Sample.dist_m).sum / 1000 ∧
    summary exRows = [] ∧
    total_time exRows = 1 / 2 ∧
    total_dist exRows = 1 / 100 := by
  refine ⟨rfl, rfl, ?_, ?_, ?_⟩
  · have h1 : all_runs exRows = [⟨Status.hand, 0, 0, (30 : ℚ) + 0⟩] := rfl
    rw [summary, h1, summaryFilter]
    simp only [List.filter_eq_nil_iff, List.mem_singleton, decide_eq_true_eq]
    rintro iv rfl
    rw [duration_min]
    norm_num
  · rw [total_time, exRows]
    norm_num
  · rw [total_dist, exRows]
    norm_num

/-! ### Claim C10: label totals versus total elapsed time -/

theorem label_total_cons (st : Status) (iv : Interval α) (l : List (Interval α)) :
    label_total st (iv :: l)
      = (if iv.status = st then duration_min iv else 0) + label_total st l := by
  rw [label_total, label_total, List.filter_cons]
  by_cases h : iv.status = st
  · simp [h]
  · simp [h]

/-- Every surviving interval carries exactly one of the three labels, so the
three per-label totals add up to the total minutes of the filtered list. -/
theorem label_total_partition (l : List (Interval α)) :
    label_total Status.hand l + label_total Status.crawler l + label_total Status.wheel l
      = (l.map duration_min).sum := by
  induction l with
  | nil => simp [label_total]
  | cons iv l ih =>
    rw [label_total_cons, label_total_cons, label_total_cons, List.map_cons,
      List.sum_cons, ← ih]
    cases h : iv.status <;> simp [h] <;> ring

theorem sum_duration_min_filter_not (l : List (Interval α)) (p : Interval α → Bool) :
    ((l.filter p).map duration_min).sum
        + ((l.filter fun iv => !p iv).map duration_min).sum
      = (l.map duration_min).sum := by
  induction l with
  | nil => simp
  | cons iv l ih =>
    cases hpv : p iv
    · simp [List.filter_cons, hpv]
      linarith [ih]
    · simp [List.filter_cons, hpv]
      linarith [ih]

theorem sum_duration_min (l : List (Interval α)) :
    (l.map duration_min).sum = (l.map Interval.duration_sec).sum / 60 := by
  induction l with
  | nil => simp
  | cons iv l ih => simp [duration_min, ih, add_div]

/-- When every sample has nonnegative elapsed time (guaranteed by the
`sort_values('time')` on line 65 followed by `diff()`), every aggregated group
has nonnegative duration. -/
theorem all_runs_duration_nonneg (rows : List (Sample α))
    (h : ∀ r ∈ rows, 0 ≤ r.time_diff) :
    ∀ iv ∈ all_runs rows, 0 ≤ iv.duration_sec := by
  intro iv hiv
  rw [all_runs, List.mem_map] at hiv
  obtain ⟨run, hrun, rfl⟩ := hiv
  rw [mkInterval_duration]
  apply List.sum_nonneg
  intro x hx
  rw [List.mem_map] at hx
  obtain ⟨r, hr, rfl⟩ := hx
  apply h
  have hmem : r ∈ (runs rows).flatten := List.mem_flatten.mpr ⟨run, hrun, hr⟩
  rwa [runs_flatten] at hmem

/-- C10: with nonnegative per-sample elapsed times, the sum of the three
per-label minute totals computed from the surviving intervals never exceeds
`total_elapsed_min`; the shortfall is exactly the summed minutes of the runs
dropped by the noise filter, and equality holds when nothing is dropped. -/
theorem c10_label_totals (rows : List (Sample ℚ)) (h : ∀ r ∈ rows, 0 ≤ r.time_diff) :
    time_hand rows + time_crawler rows + time_wheel rows ≤ total_time rows ∧
    total_time rows - (time_hand rows + time_crawler rows + time_wheel rows)
      = ((dropped rows).map duration_min).sum ∧
    (dropped rows = [] →
      time_hand rows + time_crawler rows + time_wheel rows = total_time rows) := by
  have hpart : time_hand rows + time_crawler rows + time_wheel rows
      = ((summary rows).map duration_min).sum := label_total_partition _
  have htot : ((all_runs rows).map duration_min).sum = total_time rows := by
    rw [sum_duration_min, runs_sum_time_diff, total_time]
  have key : ((summary rows).map duration_min).sum
      + ((dropped rows).map duration_min).sum = total_time rows := by
    have hsplit := sum_duration_min_filter_not (all_runs rows)
      (fun iv => decide (1 < duration_min iv))
    exact hsplit.trans htot
  have hnonneg : 0 ≤ ((dropped rows).map duration_min).sum := by
    apply List.sum_nonneg
    intro x hx
    rw [List.mem_map] at hx
    obtain ⟨iv, hiv, rfl⟩ := hx
    have hiv' : iv ∈ all_runs rows := List.mem_of_mem_filter hiv
    have := all_runs_duration_nonneg rows h iv hiv'
    rw [duration_min]
    positivity
  refine ⟨by linarith, by linarith, ?_⟩
  intro hd
  rw [hd] at key
  simp only [List.map_nil, List.sum_nil, add_zero] at key
  rw [hpart]
  exact key

/-- Witness for C10 on the concrete one-sample input. -/
theorem c10_label_totals_witness :
    time_hand exRows + time_crawler exRows + time_wheel exRows ≤ total_time exRows :=
  (c10_label_totals exRows (by decide)).1

/-! ### The distance/speed deriver over `ℝ` -/

/-- Model of `np.arctan2 y x` (four-quadrant arctangent, numpy conventions). -/
noncomputable def arctan2 (y x : ℝ) : ℝ :=
  if 0 < x then Real.arctan (y / x)
  else if x < 0 then
    (if 0 ≤ y then Real.arctan (y / x) + Real.pi else Real.arctan (y / x) - Real.pi)
  else if 0 < y then Real.pi / 2
  else if y < 0 then -(Real.pi / 2)
  else 0

/-- Model of `np.radians`: degrees to radians. -/
noncomputable def radians (x : ℝ) : ℝ := x * (Real.pi / 180)

/-- The haversine intermediate `a` of line 75 of `src/app.py`:
`np.sin(dlat/2)**2 + np.cos(np.radians(lat1)) * np.cos(np.radians(lat2)) * np.sin(dlon/2)**2`. -/
noncomputable def hav_a (lat1 lon1 lat2 lon2 : ℝ) : ℝ :=
  Real.sin (radians (lat2 - lat1) / 2) ^ 2 +
    Real.cos (radians lat1) * Real.cos (radians lat2) *
      Real.sin (radians (lon2 - lon1) / 2) ^ 2

/-- Lines 71-77 of `src/app.py`: `calc_distance`, with `R = 6371000` and
`c = 2 * np.arctan2(np.sqrt(a), np.sqrt(1-a))`. -/
noncomputable def calc_distance (lat1 lon1 lat2 lon2 : ℝ) : ℝ :=
  6371000 * (2 * arctan2 (Real.sqrt (hav_a lat1 lon1 lat2 lon2))
    (Real.sqrt (1 - hav_a lat1 lon1 lat2 lon2)))

/-- One raw GPS fix: timestamp (seconds), latitude and longitude (degrees). -/
structure Fix where
  time : ℝ
  lat : ℝ
  lon : ℝ

/-- The first row of the dataframe after `fillna(0)`: `dist_m = 0`,
`time_diff = 0`, the speed rule applied to those zeros, and the classifier
applied to the resulting speed. -/
noncomputable def firstSample (cfg : Config ℝ) (f : Fix) : Sample ℝ :=
  { time := f.time, dist_m := 0, time_diff := 0,
    speed_kmh := speed_kmh 0 0,
    status := classify_status cfg (speed_kmh 0 0) }

/-- A non-first row: distance from the previous fix via `calc_distance` (the
`shift()` pairing of line 79), `time_diff` from `df['time'].diff()` (line 80),
then the speed rule and the classifier. -/
noncomputable def pairSample (cfg : Config ℝ) (prev f : Fix) : Sample ℝ :=
  { time := f.time,
    dist_m := calc_distance prev.lat prev.lon f.lat f.lon,
    time_diff := f.time - prev.time,
    speed_kmh := speed_kmh (calc_distance prev.lat prev.lon f.lat f.lon)
      (f.time - prev.time),
    status := classify_status cfg (speed_kmh
      (calc_distance prev.lat prev.lon f.lat f.lon) (f.time - prev.time)) }

noncomputable def deriveAux (cfg : Config ℝ) : Fix → List Fix → List (Sample ℝ)
  | _, [] => []
  | prev, f :: rest => pairSample cfg prev f :: deriveAux cfg f rest

/-- Lines 79-96 of `src/app.py`: the enriched sample sequence derived from an
ordered fix sequence (one sample per fix, first row zero-filled). -/
noncomputable def derive (cfg : Config ℝ) : List Fix → List (Sample ℝ)
  | [] => []
  | f :: rest => firstSample cfg f :: deriveAux cfg f rest

/-! ### Haversine facts -/

theorem arctan2_nonneg_le {y x : ℝ} (hy : 0 ≤ y) (hx : 0 ≤ x) :
    0 ≤ arctan2 y x ∧ arctan2 y x ≤ Real.pi / 2 := by
  rw [arctan2]
  rcases hx.lt_or_eq with hx' | hx'
  · rw [if_pos hx']
    constructor
    · have hm := Real.arctan_strictMono.monotone
        (show (0 : ℝ) ≤ y / x from div_nonneg hy hx'.le)
      rwa [Real.arctan_zero] at hm
    · exact (Real.arctan_lt_pi_div_two _).le
  · rw [if_neg (by rw [← hx']; exact lt_irrefl 0),
      if_neg (by rw [← hx']; exact not_lt.mpr (le_refl 0))]
    by_cases hy' : 0 < y
    · rw [if_pos hy']
      exact ⟨by positivity, le_refl _⟩
    · rw [if_neg hy', if_neg (not_lt.mpr hy)]
      exact ⟨le_refl 0, by positivity⟩

/-- The haversine distance always lies in `[0, pi * R]`. -/
theorem calc_distance_nonneg_le (lat1 lon1 lat2 lon2 : ℝ) :
    0 ≤ calc_distance lat1 lon1 lat2 lon2 ∧
      calc_distance lat1 lon1 lat2 lon2 ≤ Real.pi * 6371000 := by
  obtain ⟨h1, h2⟩ := arctan2_nonneg_le
    (Real.sqrt_nonneg (hav_a lat1 lon1 lat2 lon2))
    (Real.sqrt_nonneg (1 - hav_a lat1 lon1 lat2 lon2))
  rw [calc_distance]
  constructor
  · nlinarith
  · nlinarith

theorem hav_a_comm (lat1 lon1 lat2 lon2 : ℝ) :
    hav_a lat1 lon1 lat2 lon2 = hav_a lat2 lon2 lat1 lon1 := by
  simp only [hav_a, radians]
  rw [show (lat1 - lat2) * (Real.pi / 180) / 2
      = -((lat2 - lat1) * (Real.pi / 180) / 2) by ring,
    show (lon1 - lon2) * (Real.pi / 180) / 2
      = -((lon2 - lon1) * (Real.pi / 180) / 2) by ring,
    Real.sin_neg, Real.sin_neg]
  ring

theorem calc_distance_comm (lat1 lon1 lat2 lon2 : ℝ) :
    calc_distance lat1 lon1 lat2 lon2 = calc_distance lat2 lon2 lat1 lon1 := by
  rw [calc_distance, calc_distance, hav_a_comm lat1 lon1 lat2 lon2]

theorem hav_a_self (lat lon : ℝ) : hav_a lat lon lat lon = 0 := by
  simp only [hav_a, radians, sub_self, zero_mul, zero_div, Real.sin_zero]
  ring

theorem calc_distance_self (lat lon : ℝ) : calc_distance lat lon lat lon = 0 := by
  rw [calc_distance, hav_a_self, Real.sqrt_zero, sub_zero, Real.sqrt_one, arctan2,
    if_pos one_pos]
  norm_num [Real.arctan_zero]

/-- The speed rule never produces a negative value from a nonnegative distance. -/
theorem speed_kmh_nonneg {d e : α} (hd : 0 ≤ d) : 0 ≤ speed_kmh d e := by
  rw [speed_kmh]
  split_ifs with h
  · exact mul_nonneg (div_nonneg hd h.1.le) (by norm_num)
  · exact le_refl 0

theorem deriveAux_nonneg (cfg : Config ℝ) (rest : List Fix) :
    ∀ prev : Fix, ∀ s ∈ deriveAux cfg prev rest,
      0 ≤ s.dist_m ∧ s.dist_m ≤ Real.pi * 6371000 ∧ 0 ≤ s.speed_kmh := by
  induction rest with
  | nil =>
    intro prev s hs
    simp [deriveAux] at hs
  | cons f rest ih =>
    intro prev s hs
    rw [deriveAux] at hs
    rcases List.mem_cons.mp hs with rfl | hs'
    · obtain ⟨h1, h2⟩ := calc_distance_nonneg_le prev.lat prev.lon f.lat f.lon
      exact ⟨h1, h2, speed_kmh_nonneg h1⟩
    · exact ih f s hs'

/-! ### Claims C7, C8 and C9 -/

/-- C7: a single-fix input yields exactly one sample, with `dist_m = 0`,
`elapsed_s = 0` and `speed_kmh = 0` (a degenerate output, not a failure); the
resulting single run has `duration_s = 0` and the noise filter drops it,
leaving an empty Interval list. -/
theorem c7_single_fix (cfg : Config ℝ) (f : Fix) :
    (derive cfg [f]).length = 1 ∧
    (∀ s ∈ derive cfg [f], s.dist_m = 0 ∧ s.time_diff = 0 ∧ s.speed_kmh = 0) ∧
    (∃ iv, all_runs (derive cfg [f]) = [iv] ∧ iv.duration_sec = 0) ∧
    summary (derive cfg [f]) = [] := by
  have hd : derive cfg [f] = [firstSample cfg f] := rfl
  have hspeed : speed_kmh (0 : ℝ) 0 = 0 := by
    rw [speed_kmh, if_neg]
    rintro ⟨h1, -⟩
    exact lt_irrefl _ h1
  have hall : all_runs (derive cfg [f]) = [mkInterval [firstSample cfg f]] := by
    rw [hd]; rfl
  have hdur : (mkInterval [firstSample cfg f]).duration_sec = 0 := by
    rw [mkInterval_duration]
    simp [firstSample]
  refine ⟨by rw [hd]; rfl, ?_, ⟨mkInterval [firstSample cfg f], hall, hdur⟩, ?_⟩
  · intro s hs
    rw [hd, List.mem_singleton] at hs
    subst hs
    exact ⟨rfl, rfl, hspeed⟩
  · rw [summary, summaryFilter, List.filter_eq_nil_iff]
    intro iv hiv
    rw [hall, List.mem_singleton] at hiv
    subst hiv
    simp only [decide_eq_true_eq, not_lt, duration_min, hdur]
    norm_num

/-- Witness for C7 at a concrete fix. -/
theorem c7_single_fix_witness :
    (derive ⟨2, 15⟩ [⟨5, 1, 1⟩]).length = 1 ∧
    ((firstSample ⟨2, 15⟩ ⟨5, 1, 1⟩).dist_m = 0 ∧
      (firstSample ⟨2, 15⟩ ⟨5, 1, 1⟩).time_diff = 0 ∧
      (firstSample ⟨2, 15⟩ ⟨5, 1, 1⟩).speed_kmh = 0) ∧
    summary (derive ⟨2, 15⟩ [⟨5, 1, 1⟩]) = [] :=
  ⟨(c7_single_fix ⟨2, 15⟩ ⟨5, 1, 1⟩).1,
   (c7_single_fix ⟨2, 15⟩ ⟨5, 1, 1⟩).2.1 _ (by simp [derive, deriveAux]),
   (c7_single_fix ⟨2, 15⟩ ⟨5, 1, 1⟩).2.2.2⟩

/-- C8: the haversine distance is symmetric in its two points, and a
consecutive fix pair with identical coordinates derives `dist_m = 0`
regardless of the elapsed time between them. -/
theorem c8_haversine (lat1 lon1 lat2 lon2 : ℝ) (cfg : Config ℝ) (p q : Fix) :
    calc_distance lat1 lon1 lat2 lon2 = calc_distance lat2 lon2 lat1 lon1 ∧
    (p.lat = q.lat → p.lon = q.lon → (pairSample cfg p q).dist_m = 0) := by
  refine ⟨calc_distance_comm _ _ _ _, ?_⟩
  intro hlat hlon
  show calc_distance p.lat p.lon q.lat q.lon = 0
  rw [hlat, hlon, calc_distance_self]

/-- Witness for C8: symmetry at two concrete points, and a pair of fixes 99
seconds apart at the same coordinates with derived distance 0. -/
theorem c8_haversine_witness :
    calc_distance 1 2 3 4 = calc_distance 3 4 1 2 ∧
    (pairSample ⟨2, 15⟩ ⟨0, 5, 6⟩ ⟨99, 5, 6⟩).dist_m = 0 :=
  ⟨(c8_haversine 1 2 3 4 ⟨2, 15⟩ ⟨0, 5, 6⟩ ⟨99, 5, 6⟩).1,
   (c8_haversine 1 2 3 4 ⟨2, 15⟩ ⟨0, 5, 6⟩ ⟨99, 5, 6⟩).2 rfl rfl⟩

/-- C9: every sample derived from any input has nonnegative `dist_m` (the
haversine result lies in `[0, pi * R]`) and nonnegative `speed_kmh` (the speed
formula is only applied for positive elapsed time, the other branch returning
exactly 0). -/
theorem c9_nonneg (cfg : Config ℝ) (fixes : List Fix) :
    ∀ s ∈ derive cfg fixes,
      0 ≤ s.dist_m ∧ s.dist_m ≤ Real.pi * 6371000 ∧ 0 ≤ s.speed_kmh := by
  cases fixes with
  | nil =>
    intro s hs
    simp [derive] at hs
  | cons f rest =>
    intro s hs
    rw [derive] at hs
    rcases List.mem_cons.mp hs with rfl | hs'
    · refine ⟨le_refl 0, ?_, speed_kmh_nonneg (le_refl 0)⟩
      show (0 : ℝ) ≤ Real.pi * 6371000
      positivity
    · exact deriveAux_nonneg cfg rest f s hs'

/-- Witness for C9 at a concrete one-fix input. -/
theorem c9_nonneg_witness :
    0 ≤ (firstSample ⟨2, 15⟩ ⟨0, 0, 0⟩).dist_m ∧
    (firstSample ⟨2, 15⟩ ⟨0, 0, 0⟩).dist_m ≤ Real.pi * 6371000 ∧
    0 ≤ (firstSample ⟨2, 15⟩ ⟨0, 0, 0⟩).speed_kmh :=
  c9_nonneg ⟨2, 15⟩ [⟨0, 0, 0⟩] (firstSample ⟨2, 15⟩ ⟨0, 0, 0⟩)
    (by simp [derive, deriveAux])

end DailyReport
